import Mathlib

/-!
Verification of the IEC 62056-21 transport layer (`iec62056_21/transports.py`).

The development shallowly embeds `BaseTransport.read`, `BaseTransport.simple_read`
and the closed-resource behaviour of `SerialTransport` / `TcpTransport`.

Bytes are modelled as `Nat`; the incoming byte stream is a finite script of
`(arrivalTime, byte)` pairs, and wall-clock time is a `Nat` carried in the
channel state.  `time.time()` reads the current time; receiving a byte advances
the clock to that byte's arrival time.  The outer block loop of `read` is given
explicit fuel (one unit per loop iteration); `read` supplies `stream.length + 1`
units, which is always enough because every iteration consumes at least one
scripted byte.  Running out of scripted bytes is the distinguished `blocked`
outcome (in Python the call would block on `recv`).
-/

namespace Iec62056

/-- Start-of-header control byte (`b"\x01"` in `read`'s `start_chars`). -/
def SOH : Nat := 1

/-- Start-of-text control byte (`b"\x02"` in `read`'s `start_chars`). -/
def STX : Nat := 2

/-- End-of-text control byte (`b"\x03"` in `read`'s `end_chars`). -/
def ETX : Nat := 3

/-- End-of-transmission control byte (`b"\x04"` in `read`'s `end_chars`). -/
def EOT : Nat := 4

/-- Modelled from the spec: the ACK control reply from the constants
collaborator (`constants.ACK`, not under src), a single byte. -/
def ACK : Nat := 6

/-- Modelled from the spec: the NACK control reply from the constants
collaborator (`constants.NACK`, not under src), a single byte. -/
def NACK : Nat := 21

/-- Modelled from the spec: the protocol's line-terminator bytes
(`constants.LINE_END`, not under src), CR LF. -/
def LINE_END : List Nat := [13, 10]

/-- Modelled from the spec: the Checksum Unit's `compute` (`utils`, not under
src) — BCC is the exclusive (XOR) running accumulation of the input bytes. -/
def bcc (data : List Nat) : Nat := data.foldl (fun a b => a ^^^ b) 0

/-- Modelled from the spec: `utils.bcc_valid` — recompute the BCC over all
bytes except the last and compare it to the last byte. -/
def bcc_valid (d : List Nat) : Bool :=
  match d.getLast? with
  | none => false
  | some c => bcc d.dropLast == c

/-- Modelled from the spec: `utils.add_bcc` — append the BCC of the buffer as
its trailing checksum byte. -/
def add_bcc (d : List Nat) : List Nat := d ++ [bcc d]

/-- The byte channel backing a transport during one call: the scripted incoming
stream of `(arrivalTime, byte)` pairs, the current wall-clock time, and the
bytes sent so far (ACK/NACK replies). -/
structure Chan where
  stream : List (Nat × Nat)
  now : Nat
  sent : List Nat
deriving Repr, DecidableEq

/-- Sending a byte over the channel (`self.send`). -/
def sendByte (b : Nat) (c : Chan) : Chan := ⟨c.stream, c.now, c.sent ++ [b]⟩

/-- Timestamp a list of bytes at one arrival time. -/
def atT (t : Nat) (bs : List Nat) : List (Nat × Nat) := bs.map (fun b => (t, b))

/-- A channel whose whole scripted input arrives at time 0. -/
def mkChan (bs : List Nat) : Chan := ⟨atT 0 bs, 0, []⟩

/-- Error outcomes of a read call: the `TimeoutError` of lines 60/154, the
stream running out of scripted bytes, or (an artifact of the embedding)
running out of loop fuel. -/
inductive RErr where
  | timeout
  | blocked
  | fuelOut
deriving Repr, DecidableEq

/-- Result of `read` / `simple_read`: the returned buffer or an error, together
with the channel state (consumed stream, clock, bytes sent). -/
inductive RResult where
  | ok (data : List Nat) (c : Chan)
  | err (e : RErr) (c : Chan)
deriving Repr, DecidableEq

/-- Result of the per-block inner byte loop of `read` (lines 55-78): the
accumulated block, the end char that broke the loop, the recorded start char,
and the clock/stream after the loop. -/
inductive InnerRes where
  | ok (inData : List Nat) (endChar : Nat) (startChar : Option Nat)
      (now : Nat) (stream : List (Nat × Nat))
  | err (e : RErr) (now : Nat) (stream : List (Nat × Nat))
deriving Repr, DecidableEq

/-- The inner byte loop of `BaseTransport.read` (lines 55-78): receive one byte
at a time; after each receive compare the elapsed time since `startTime` with
the transport's configured timeout `T` (line 59 uses `self.timeout`); while no
start char has been received, discard bytes that are not in the start set and
record/append the one that is; afterwards append every byte, breaking on an end
char. -/
def readInner (T startTime : Nat) (scr : Bool) (startChar : Option Nat)
    (inData : List Nat) (now : Nat) (stream : List (Nat × Nat)) : InnerRes :=
  match stream with
  | [] => .err .blocked now []
  | (t, b) :: rest =>
    let now1 := max now t
    if now1 - startTime > T then .err .timeout now1 rest
    else if scr = false then
      if b = SOH ∨ b = STX then
        readInner T startTime true (some b) (inData ++ [b]) now1 rest
      else
        readInner T startTime false startChar inData now1 rest
    else if b = ETX ∨ b = EOT then .ok (inData ++ [b]) b startChar now1 rest
    else readInner T startTime scr startChar (inData ++ [b]) now1 rest

/-- The outer block loop of `BaseTransport.read` (lines 50-129): run the inner
byte loop with a fresh start time, read the trailing checksum byte (not subject
to the elapsed-time check), count the packet, short-circuit on a recorded SOH
start char, and otherwise validate the checksum and dispatch on the end char —
EOT: NACK and retry on invalid, else ACK, replace checksum+EOT by the line
end, drop the leading start byte when `packets > 1`, and loop; ETX: NACK and
retry on invalid, else drop the leading start byte and recompute the trailing
checksum over the whole buffer when `packets > 1`, and return.  `fuel` bounds
the number of loop iterations (an embedding artifact; `read` supplies enough). -/
def readOuter (T fuel : Nat) (total : List Nat) (packets : Nat) (scr : Bool)
    (startChar : Option Nat) (c : Chan) : RResult :=
  match fuel with
  | 0 => .err .fuelOut c
  | fuel + 1 =>
    match readInner T c.now scr startChar [] c.now c.stream with
    | .err e now1 stream1 => .err e ⟨stream1, now1, c.sent⟩
    | .ok inData endChar startChar1 now1 stream1 =>
      let packets1 := packets + 1
      match stream1 with
      | [] => .err .blocked ⟨[], now1, c.sent⟩
      | (t, w) :: rest =>
        let c2 : Chan := ⟨rest, max now1 t, c.sent⟩
        let inData2 := inData ++ [w]
        if startChar1 = some SOH then .ok (total ++ inData2) c2
        else if endChar = EOT then
          if bcc_valid inData2 = false then
            readOuter T fuel total packets1 true startChar1 (sendByte NACK c2)
          else
            let d1 := inData2.dropLast.dropLast ++ LINE_END
            let d2 := if packets1 > 1 then d1.drop 1 else d1
            readOuter T fuel (total ++ d2) packets1 true startChar1
              (sendByte ACK c2)
        else if endChar = ETX then
          if bcc_valid inData2 = false then
            readOuter T fuel total packets1 true startChar1 (sendByte NACK c2)
          else
            let d1 := if packets1 > 1 then inData2.drop 1 else inData2
            let total2 := total ++ d1
            let total3 := if packets1 > 1 then add_bcc total2.dropLast else total2
            .ok total3 c2
        else readOuter T fuel total packets1 true startChar1 c2

/-- Python's `timeout or self.timeout` (line 48/147): the per-call override,
falling back to the configured timeout when absent or zero. -/
def pyOr (o : Option Nat) (d : Nat) : Nat :=
  match o with
  | none => d
  | some v => if v = 0 then d else v

/-- `BaseTransport.read` (lines 32-131).  `selfTimeout` is the configured
`self.timeout`; `timeout?` the per-call override.  Line 48 computes
`timeout or self.timeout` into a local that the body never uses — the
elapsed-time check of line 59 reads `self.timeout` — so the binding is dead
here exactly as in the source. -/
def read (selfTimeout : Nat) (timeout? : Option Nat) (c : Chan) : RResult :=
  let _tmo := pyOr timeout? selfTimeout
  readOuter selfTimeout (c.stream.length + 1) [] 0 false none c

/-- The byte loop of `BaseTransport.simple_read` (lines 150-170): like the
inner loop of `read` but with a single caller-given start byte and end byte,
returning the accumulated bytes (end byte inclusive).  The elapsed-time check
of line 153 also reads `self.timeout`. -/
def simpleInner (T startTime : Nat) (sc ec : Nat) (scr : Bool)
    (inData : List Nat) (now : Nat) (stream : List (Nat × Nat))
    (sent : List Nat) : RResult :=
  match stream with
  | [] => .err .blocked ⟨[], now, sent⟩
  | (t, b) :: rest =>
    let now1 := max now t
    if now1 - startTime > T then .err .timeout ⟨rest, now1, sent⟩
    else if scr = false then
      if b = sc then simpleInner T startTime sc ec true (inData ++ [b]) now1 rest sent
      else simpleInner T startTime sc ec false inData now1 rest sent
    else if b = ec then .ok (inData ++ [b]) ⟨rest, now1, sent⟩
    else simpleInner T startTime sc ec true (inData ++ [b]) now1 rest sent

/-- `BaseTransport.simple_read` (lines 133-173).  As in `read`, line 147
computes the override into a dead local and the check uses `self.timeout`. -/
def simple_read (selfTimeout : Nat) (sc ec : Nat) (timeout? : Option Nat)
    (c : Chan) : RResult :=
  let _tmo := pyOr timeout? selfTimeout
  simpleInner selfTimeout c.now sc ec false [] c.now c.stream c.sent

/-- An EOT-terminated block of a multi-block message as it appears on the
wire: STX, payload, EOT, and a correct trailing checksum. -/
def eotBlock (p : List Nat) : List Nat := add_bcc (STX :: p ++ [EOT])

/-- An ETX-terminated (final or only) block as it appears on the wire: STX,
payload, ETX, and a correct trailing checksum. -/
def etxBlock (p : List Nat) : List Nat := add_bcc (STX :: p ++ [ETX])

/-- The wire bytes of a list of EOT-terminated blocks. -/
def blocksBytes (ps : List (List Nat)) : List Nat :=
  match ps with
  | [] => []
  | p :: rest => eotBlock p ++ blocksBytes rest

/-- The de-blocked payloads of the EOT-terminated blocks after the first, each
followed by the line-terminator bytes. -/
def bodyBytes (ps : List (List Nat)) : List Nat :=
  match ps with
  | [] => []
  | p :: rest => p ++ LINE_END ++ bodyBytes rest

/-- A full multi-block wire message: the EOT-terminated blocks followed by the
ETX-terminated final block. -/
def msgStream (pps : List (List Nat)) (pn : List Nat) : List Nat :=
  blocksBytes pps ++ etxBlock pn

/-- The logical message `read` reassembles from a multi-block wire message:
the first STX is kept, each EOT block contributes its payload followed by the
line terminator (blocks after the first lose their STX), the final payload
keeps its ETX, and the trailing checksum is recomputed over the whole buffer. -/
def reassembled (pps : List (List Nat)) (pn : List Nat) : List Nat :=
  match pps with
  | [] => add_bcc (pn ++ [ETX])
  | p1 :: ps => add_bcc (STX :: p1 ++ LINE_END ++ bodyBytes ps ++ pn ++ [ETX])

/-- The transport-error kind raised by Serial/Tcp operations on a closed
resource (`TransportError` in the source). -/
inductive TransportError where
  | closed
deriving Repr, DecidableEq

/-- The state of an open `serial.Serial` port: its baudrate, the bytes written
to it, and the bytes it has available to read. -/
structure SerialPort where
  baudrate : Nat
  written : List Nat
  toRead : List Nat
deriving Repr, DecidableEq

/-- `SerialTransport`: a port name, the configured timeout, and the owned
serial port — `none` when closed. -/
structure SerialTransport where
  port_name : String
  timeout : Nat
  port : Option SerialPort
deriving Repr, DecidableEq

/-- `SerialTransport.disconnect` (lines 250-258): raises a transport error if
the port is closed, otherwise closes and removes it. -/
def SerialTransport.disconnect (tr : SerialTransport) :
    Except TransportError SerialTransport :=
  match tr.port with
  | none => .error .closed
  | some _ => .ok { tr with port := none }

/-- `SerialTransport._send` (lines 260-270): raises a transport error if the
port is closed, otherwise writes and flushes the data. -/
def SerialTransport.send (tr : SerialTransport) (data : List Nat) :
    Except TransportError SerialTransport :=
  match tr.port with
  | none => .error .closed
  | some p => .ok { tr with port := some { p with written := p.written ++ data } }

/-- `SerialTransport._recv` (lines 272-281): raises a transport error if the
port is closed, otherwise reads up to `chars` bytes. -/
def SerialTransport.recv (tr : SerialTransport) (chars : Nat) :
    Except TransportError (List Nat × SerialTransport) :=
  match tr.port with
  | none => .error .closed
  | some p =>
    .ok (p.toRead.take chars,
      { tr with port := some { p with toRead := p.toRead.drop chars } })

/-- `SerialTransport.switch_baudrate` (lines 283-304): raises a transport
error if the port is closed, otherwise replaces it with a fresh port at the
new baudrate. -/
def SerialTransport.switch_baudrate (tr : SerialTransport) (baud : Nat) :
    Except TransportError SerialTransport :=
  match tr.port with
  | none => .error .closed
  | some _ => .ok { tr with port := some ⟨baud, [], []⟩ }

/-- The state of a connected socket: the bytes sent over it and the bytes it
has available to receive. -/
structure TcpSocket where
  sentBytes : List Nat
  toRead : List Nat
deriving Repr, DecidableEq

/-- `TcpTransport`: a (host, port) address, the configured timeout, and the
owned socket — `none` when closed. -/
structure TcpTransport where
  address : String × Nat
  timeout : Nat
  socket : Option TcpSocket
deriving Repr, DecidableEq

/-- `TcpTransport.disconnect` (lines 336-344): raises a transport error if the
socket is closed, otherwise closes and removes it. -/
def TcpTransport.disconnect (tr : TcpTransport) :
    Except TransportError TcpTransport :=
  match tr.socket with
  | none => .error .closed
  | some _ => .ok { tr with socket := none }

/-- `TcpTransport._send` (lines 346-355): raises a transport error if the
socket is closed, otherwise sends all the data. -/
def TcpTransport.send (tr : TcpTransport) (data : List Nat) :
    Except TransportError TcpTransport :=
  match tr.socket with
  | none => .error .closed
  | some sk =>
    .ok { tr with socket := some { sk with sentBytes := sk.sentBytes ++ data } }

/-- `TcpTransport._recv` (lines 357-370): raises a transport error if the
socket is closed, otherwise receives up to `chars` bytes. -/
def TcpTransport.recv (tr : TcpTransport) (chars : Nat) :
    Except TransportError (List Nat × TcpTransport) :=
  match tr.socket with
  | none => .error .closed
  | some sk =>
    .ok (sk.toRead.take chars,
      { tr with socket := some { sk with toRead := sk.toRead.drop chars } })

/-- `TcpTransport.switch_baudrate` (lines 372-378): baudrate has no meaning
for TCP, so the method body is `pass` — it never raises, touches no bytes and
leaves the transport unchanged, closed or not. -/
def TcpTransport.switch_baudrate (tr : TcpTransport) (baud : Nat) :
    Except TransportError TcpTransport :=
  .ok tr

/-- A staircase wire stream of `n` EOT blocks followed by a final ETX block,
in which every block attempt arrives exactly `T` after the clock value `a` at
which the previous attempt completed — the maximal wait the per-block deadline
allows. -/
def stairsA (T : Nat) : Nat → Nat → List (Nat × Nat)
  | 0, a => atT (a + T) (etxBlock [66])
  | n + 1, a => atT (a + T) (eotBlock [65]) ++ stairsA T n (a + T)

/-- A staircase wire stream of `n` invalid receipts of the block STX 'A' ETX
(checksum byte 99, which is wrong) followed by its valid retransmission, each
attempt arriving exactly `T` after the previous attempt completed. -/
def stairsB (T : Nat) : Nat → Nat → List (Nat × Nat)
  | 0, a => atT (a + T) (add_bcc ((STX :: [65]) ++ [ETX]))
  | n + 1, a => atT (a + T) ((STX :: [65] ++ [ETX]) ++ [99]) ++ stairsB T n (a + T)

/-- The wall-clock value after `n` block attempts of a staircase stream:
`a + n * T`, written recursively. -/
def afterN (a T : Nat) : Nat → Nat
  | 0 => a
  | n + 1 => afterN a T n + T

/-! ## Checksum Unit facts -/

theorem dropLast_add_bcc (d : List Nat) : (add_bcc d).dropLast = d := by
  simp [add_bcc]

theorem bcc_valid_add_bcc (d : List Nat) : bcc_valid (add_bcc d) = true := by
  simp [bcc_valid, add_bcc, List.getLast?_concat]

theorem bcc_valid_concat (d : List Nat) (w : Nat) :
    bcc_valid (d ++ [w]) = (bcc d == w) := by
  simp [bcc_valid, List.getLast?_concat]

/-! ## Inner byte loop runs -/

theorem atT_append (t : Nat) (a b : List Nat) :
    atT t (a ++ b) = atT t a ++ atT t b := by
  simp [atT]

theorem atT_cons (t x : Nat) (l : List Nat) :
    atT t (x :: l) = (t, x) :: atT t l := rfl

/-- Once past the start state, the inner loop appends every byte (regardless
of the start set) until an end char, which it appends and returns, leaving the
recorded start char untouched. -/
theorem innerAccumT (T st : Nat) (sc : Option Nat) (e : Nat)
    (rest : List (Nat × Nat)) (he : e = ETX ∨ e = EOT) :
    ∀ (p : List Nat) (acc : List Nat) (now0 t : Nat),
      (∀ b ∈ p, ¬(b = ETX ∨ b = EOT)) → now0 ≤ t → t - st ≤ T →
      readInner T st true sc acc now0 (atT t (p ++ [e]) ++ rest) =
        .ok (acc ++ p ++ [e]) e sc t rest := by
  intro p
  induction p with
  | nil =>
    intro acc now0 t _ hnow ht
    have h1 : max now0 t = t := by omega
    have h2 : ¬ (t - st > T) := by omega
    simp [atT, readInner, h1, h2, he]
  | cons a q ih =>
    intro acc now0 t hp hnow ht
    have h1 : max now0 t = t := by omega
    have h2 : ¬ (t - st > T) := by omega
    have ha : ¬(a = ETX ∨ a = EOT) := hp a (by simp)
    have hq : ∀ b ∈ q, ¬(b = ETX ∨ b = EOT) := fun b hb => hp b (by simp [hb])
    rw [List.cons_append, atT_cons, List.cons_append, readInner]
    simp only [h1, h2, if_false, ha, if_true, reduceIte]
    rw [ih (acc ++ [a]) t t hq (le_refl t) ht]
    simp

/-- Before the start state, with the whole remainder arriving at the current
time, bytes outside the start set are discarded. -/
theorem innerSkip0 (T st : Nat) (sc : Option Nat) (acc : List Nat) (t : Nat)
    (rest : List (Nat × Nat)) (ht : t - st ≤ T) :
    ∀ js, (∀ x ∈ js, ¬(x = SOH ∨ x = STX)) →
      readInner T st false sc acc t (atT t js ++ rest) =
        readInner T st false sc acc t rest := by
  intro js
  induction js with
  | nil => intro _; rfl
  | cons a q ih =>
    intro hj
    have ha : ¬(a = SOH ∨ a = STX) := hj a (by simp)
    have hq : ∀ x ∈ q, ¬(x = SOH ∨ x = STX) := fun x hx => hj x (by simp [hx])
    have h1 : max t t = t := by omega
    have h2 : ¬ (t - st > T) := by omega
    rw [atT_cons, List.cons_append, readInner]
    simp only [h1, h2, if_false, ha, reduceIte]
    exact ih hq

/-- A full well-formed block run of the inner loop from the start state: the
start byte is recognised and recorded, the body accumulated, and the end char
breaks the loop. -/
theorem innerBlockT (T : Nat) (sc : Option Nat) (b0 e : Nat) (body : List Nat)
    (rest : List (Nat × Nat)) (acc : List Nat) (now0 t : Nat)
    (hb : b0 = SOH ∨ b0 = STX) (he : e = ETX ∨ e = EOT)
    (hbody : ∀ b ∈ body, ¬(b = ETX ∨ b = EOT))
    (hnow : now0 ≤ t) (ht : t - now0 ≤ T) :
    readInner T now0 false sc acc now0 (atT t ((b0 :: body) ++ [e]) ++ rest) =
      .ok (acc ++ b0 :: body ++ [e]) e (some b0) t rest := by
  have h1 : max now0 t = t := by omega
  have h2 : ¬ (t - now0 > T) := by omega
  rw [List.cons_append, atT_cons, List.cons_append, readInner]
  simp only [h1, h2, if_false, hb, reduceIte]
  rw [innerAccumT T now0 (some b0) e rest he body (acc ++ [b0]) t t hbody
    (le_refl t) ht]
  simp

/-! ## Outer block loop steps -/

theorem bcc_valid_cons (a : Nat) (q : List Nat) (e : Nat) :
    bcc_valid (a :: (q ++ [e, bcc (a :: (q ++ [e]))])) = true := by
  have h : a :: (q ++ [e, bcc (a :: (q ++ [e]))]) = add_bcc (a :: (q ++ [e])) := by
    simp [add_bcc]
  rw [h, bcc_valid_add_bcc]

theorem dropLast2_cons (a : Nat) (q : List Nat) (e w : Nat) :
    (a :: (q ++ [e, w])).dropLast.dropLast = a :: q := by
  have h1 : a :: (q ++ [e, w]) = (a :: (q ++ [e])) ++ [w] := by simp
  have h2 : a :: (q ++ [e]) = (a :: q) ++ [e] := by simp
  rw [h1, List.dropLast_concat, h2, List.dropLast_concat]

theorem dropLast1_cons (a : Nat) (q : List Nat) (w : Nat) :
    (a :: (q ++ [w])).dropLast = a :: q := by
  have h : a :: (q ++ [w]) = (a :: q) ++ [w] := by simp
  rw [h, List.dropLast_concat]

/-- First block of a call, EOT-terminated with a correct checksum: the block
is acknowledged and contributes its STX, payload and the line terminator;
the loop continues with `packets = 1` and the start state consumed. -/
theorem firstEOT (T f : Nat) (p : List Nat) (t now0 : Nat)
    (rest : List (Nat × Nat)) (s : List Nat)
    (hp : ∀ b ∈ p, ¬(b = ETX ∨ b = EOT)) (hnow : now0 ≤ t) (ht : t - now0 ≤ T) :
    readOuter T (f + 1) [] 0 false none ⟨atT t (eotBlock p) ++ rest, now0, s⟩ =
      readOuter T f (STX :: p ++ LINE_END) 1 true (some STX)
        ⟨rest, t, s ++ [ACK]⟩ := by
  rw [readOuter]
  dsimp only
  have hw : atT t (eotBlock p) ++ rest
      = atT t ((STX :: p) ++ [EOT]) ++ ((t, bcc (STX :: p ++ [EOT])) :: rest) := by
    simp [eotBlock, add_bcc, atT_append, atT]
  rw [hw, innerBlockT T none STX EOT p ((t, bcc (STX :: p ++ [EOT])) :: rest)
    [] now0 t (Or.inr rfl) (Or.inr rfl) hp hnow ht]
  simp [SOH, STX, ETX, EOT, bcc_valid_cons, dropLast2_cons, sendByte]

theorem bcc_valid_cons_arb (a : Nat) (q : List Nat) (e w : Nat) :
    bcc_valid (a :: (q ++ [e, w])) = (bcc (a :: (q ++ [e])) == w) := by
  have h : a :: (q ++ [e, w]) = (a :: (q ++ [e])) ++ [w] := by simp
  rw [h, bcc_valid_concat]

/-- First (and only) block of a call, ETX-terminated with a correct checksum:
`read` returns the whole framed block verbatim, sending nothing. -/
theorem firstETXok (T f : Nat) (p : List Nat) (t now0 : Nat)
    (rest : List (Nat × Nat)) (s : List Nat)
    (hp : ∀ b ∈ p, ¬(b = ETX ∨ b = EOT)) (hnow : now0 ≤ t) (ht : t - now0 ≤ T) :
    readOuter T (f + 1) [] 0 false none ⟨atT t (etxBlock p) ++ rest, now0, s⟩ =
      .ok (etxBlock p) ⟨rest, t, s⟩ := by
  rw [readOuter]
  dsimp only
  have hw : atT t (etxBlock p) ++ rest
      = atT t ((STX :: p) ++ [ETX]) ++ ((t, bcc (STX :: p ++ [ETX])) :: rest) := by
    simp [etxBlock, add_bcc, atT_append, atT]
  rw [hw, innerBlockT T none STX ETX p ((t, bcc (STX :: p ++ [ETX])) :: rest)
    [] now0 t (Or.inr rfl) (Or.inl rfl) hp hnow ht]
  simp [SOH, STX, ETX, EOT, bcc_valid_cons, etxBlock, add_bcc]

/-- First block of a call recording SOH: the accumulated block — start byte,
payload, end char and trailing checksum byte — is returned verbatim with no
checksum validation (the checksum byte `x` is arbitrary) and nothing sent. -/
theorem firstSOH (T f : Nat) (p : List Nat) (e x : Nat) (t now0 : Nat)
    (rest : List (Nat × Nat)) (s : List Nat)
    (hp : ∀ b ∈ p, ¬(b = ETX ∨ b = EOT)) (he : e = ETX ∨ e = EOT)
    (hnow : now0 ≤ t) (ht : t - now0 ≤ T) :
    readOuter T (f + 1) [] 0 false none
        ⟨atT t ((SOH :: p ++ [e]) ++ [x]) ++ rest, now0, s⟩ =
      .ok (SOH :: p ++ [e, x]) ⟨rest, t, s⟩ := by
  rw [readOuter]
  dsimp only
  have hw : atT t ((SOH :: p ++ [e]) ++ [x]) ++ rest
      = atT t ((SOH :: p) ++ [e]) ++ ((t, x) :: rest) := by
    simp [atT_append, atT]
  rw [hw, innerBlockT T none SOH e p ((t, x) :: rest)
    [] now0 t (Or.inl rfl) he hp hnow ht]
  simp

/-- First block of a call, ETX-terminated with a wrong checksum byte: a NACK
is sent and the loop retries with the packet counter already advanced to 1 and
the start state still consumed. -/
theorem firstETXbad (T f : Nat) (p : List Nat) (w : Nat) (t now0 : Nat)
    (rest : List (Nat × Nat)) (s : List Nat)
    (hp : ∀ b ∈ p, ¬(b = ETX ∨ b = EOT)) (hw : bcc (STX :: p ++ [ETX]) ≠ w)
    (hnow : now0 ≤ t) (ht : t - now0 ≤ T) :
    readOuter T (f + 1) [] 0 false none
        ⟨atT t ((STX :: p ++ [ETX]) ++ [w]) ++ rest, now0, s⟩ =
      readOuter T f [] 1 true (some STX) ⟨rest, t, s ++ [NACK]⟩ := by
  rw [readOuter]
  dsimp only
  have hsh : atT t ((STX :: p ++ [ETX]) ++ [w]) ++ rest
      = atT t ((STX :: p) ++ [ETX]) ++ ((t, w) :: rest) := by
    simp [atT_append, atT]
  rw [hsh, innerBlockT T none STX ETX p ((t, w) :: rest)
    [] now0 t (Or.inr rfl) (Or.inl rfl) hp hnow ht]
  simp [SOH, STX, ETX, EOT, bcc_valid_cons_arb, hw, sendByte]
  intro h
  exact absurd h hw

/-- A later block (start state already consumed, `packets ≥ 1`),
EOT-terminated with a correct checksum, whose wire form is
`a :: q ++ EOT ++ bcc`: the block is acknowledged and contributes its payload
`q` (the leading byte `a` is stripped) plus the line terminator. -/
theorem laterEOT (T f : Nat) (a : Nat) (q : List Nat) (t now0 : Nat)
    (rest : List (Nat × Nat)) (s total : List Nat) (packets : Nat)
    (ha : ¬(a = ETX ∨ a = EOT)) (hq : ∀ b ∈ q, ¬(b = ETX ∨ b = EOT))
    (hpk : 1 ≤ packets) (hnow : now0 ≤ t) (ht : t - now0 ≤ T) :
    readOuter T (f + 1) total packets true (some STX)
        ⟨atT t (add_bcc ((a :: q) ++ [EOT])) ++ rest, now0, s⟩ =
      readOuter T f (total ++ (q ++ LINE_END)) (packets + 1) true (some STX)
        ⟨rest, t, s ++ [ACK]⟩ := by
  rw [readOuter]
  dsimp only
  have hsh : atT t (add_bcc ((a :: q) ++ [EOT])) ++ rest
      = atT t ((a :: q) ++ [EOT]) ++ ((t, bcc ((a :: q) ++ [EOT])) :: rest) := by
    simp [add_bcc, atT_append, atT]
  have hall : ∀ b ∈ a :: q, ¬(b = ETX ∨ b = EOT) := by
    intro b hb
    rcases List.mem_cons.mp hb with h | h
    · exact h ▸ ha
    · exact hq b h
  rw [hsh, innerAccumT T now0 (some STX) EOT
    ((t, bcc ((a :: q) ++ [EOT])) :: rest) (Or.inr rfl) (a :: q) [] now0 t
    hall hnow ht]
  have hgt : packets + 1 > 1 := by omega
  simp [SOH, STX, ETX, EOT, bcc_valid_cons, dropLast2_cons, hgt, sendByte]

/-- A later block (start state already consumed, `packets ≥ 1`),
ETX-terminated with a correct checksum, whose wire form is
`a :: q ++ ETX ++ bcc`: the leading byte `a` is stripped, the payload and ETX
appended, and the trailing checksum recomputed over the whole buffer; the
reassembled message is returned with nothing sent. -/
theorem laterETX (T f : Nat) (a : Nat) (q : List Nat) (t now0 : Nat)
    (rest : List (Nat × Nat)) (s total : List Nat) (packets : Nat)
    (ha : ¬(a = ETX ∨ a = EOT)) (hq : ∀ b ∈ q, ¬(b = ETX ∨ b = EOT))
    (hpk : 1 ≤ packets) (hnow : now0 ≤ t) (ht : t - now0 ≤ T) :
    readOuter T (f + 1) total packets true (some STX)
        ⟨atT t (add_bcc ((a :: q) ++ [ETX])) ++ rest, now0, s⟩ =
      .ok (add_bcc (total ++ q ++ [ETX])) ⟨rest, t, s⟩ := by
  rw [readOuter]
  dsimp only
  have hsh : atT t (add_bcc ((a :: q) ++ [ETX])) ++ rest
      = atT t ((a :: q) ++ [ETX]) ++ ((t, bcc ((a :: q) ++ [ETX])) :: rest) := by
    simp [add_bcc, atT_append, atT]
  have hall : ∀ b ∈ a :: q, ¬(b = ETX ∨ b = EOT) := by
    intro b hb
    rcases List.mem_cons.mp hb with h | h
    · exact h ▸ ha
    · exact hq b h
  rw [hsh, innerAccumT T now0 (some STX) ETX
    ((t, bcc ((a :: q) ++ [ETX])) :: rest) (Or.inl rfl) (a :: q) [] now0 t
    hall hnow ht]
  have hgt : packets + 1 > 1 := by omega
  have hdrop : ∀ w : Nat, (total ++ (q ++ [ETX, w])).dropLast = total ++ (q ++ [ETX]) := by
    intro w
    have h : total ++ (q ++ [ETX, w]) = (total ++ (q ++ [ETX])) ++ [w] := by simp
    rw [h, List.dropLast_concat]
  simp [SOH, STX, ETX, EOT, bcc_valid_cons, hgt, hdrop, add_bcc]

/-! ## Multi-block reassembly -/

theorem blocksBytes_len (ps : List (List Nat)) :
    ps.length ≤ (blocksBytes ps).length := by
  induction ps with
  | nil => simp [blocksBytes]
  | cons p rest ih =>
    simp only [blocksBytes, eotBlock, add_bcc, List.length_append,
      List.length_cons]
    omega

/-- Loop invariant of the multi-block run: with the start state consumed,
`packets ≥ 1` and enough fuel, consuming the remaining EOT blocks and the
final ETX block extends `total` by their de-blocked payloads and returns the
buffer with its checksum recomputed, ACKing each EOT block. -/
theorem multiLoop (T : Nat) (pn : List Nat)
    (hpn : ∀ b ∈ pn, ¬(b = ETX ∨ b = EOT)) :
    ∀ (ps : List (List Nat)) (f : Nat) (total s : List Nat) (packets : Nat),
      1 ≤ packets → ps.length + 1 ≤ f →
      (∀ p ∈ ps, ∀ b ∈ p, ¬(b = ETX ∨ b = EOT)) →
      readOuter T f total packets true (some STX)
          ⟨atT 0 (blocksBytes ps ++ etxBlock pn), 0, s⟩ =
        .ok (add_bcc (total ++ bodyBytes ps ++ pn ++ [ETX]))
          ⟨[], 0, s ++ List.replicate ps.length ACK⟩ := by
  intro ps
  induction ps with
  | nil =>
    intro f total s packets hpk hf _
    obtain ⟨f', rfl⟩ : ∃ f', f = f' + 1 := ⟨f - 1, by omega⟩
    have hA : ¬(STX = ETX ∨ STX = EOT) := by simp [STX, ETX, EOT]
    have h := laterETX T f' STX pn 0 0 [] s total packets hA hpn hpk
      (le_refl 0) (by omega)
    simpa [blocksBytes, bodyBytes, etxBlock] using h
  | cons p qs ih =>
    intro f total s packets hpk hf hps
    obtain ⟨f', rfl⟩ : ∃ f', f = f' + 1 := ⟨f - 1, by omega⟩
    have hA : ¬(STX = ETX ∨ STX = EOT) := by simp [STX, ETX, EOT]
    rw [show blocksBytes (p :: qs) ++ etxBlock pn
        = add_bcc ((STX :: p) ++ [EOT]) ++ (blocksBytes qs ++ etxBlock pn)
      from by simp [blocksBytes, eotBlock], atT_append]
    rw [laterEOT T f' STX p 0 0 (atT 0 (blocksBytes qs ++ etxBlock pn)) s total
      packets hA (hps p (by simp)) hpk (le_refl 0) (by omega)]
    rw [ih f' (total ++ (p ++ LINE_END)) (s ++ [ACK]) (packets + 1) (by omega)
      (by simpa using Nat.le_of_succ_le_succ hf)
      (fun x hx => hps x (by simp [hx]))]
    simp [bodyBytes, List.replicate_succ]

/-- Claim C1: for every valid multi-block message — one or more EOT-terminated
blocks followed by an ETX-terminated final block, each with a correct
checksum — `read` returns the concatenation of the blocks with per-block
framing removed except the first STX: each EOT block's trailing checksum and
EOT are replaced by the line-terminator bytes, blocks after the first lose
their leading start byte, and the trailing checksum byte of the returned
buffer validates against the entire returned buffer. -/
theorem c1_multi_block_reassembly (T : Nat) (p1 pn : List Nat)
    (ps : List (List Nat))
    (hp1 : ∀ b ∈ p1, ¬(b = ETX ∨ b = EOT))
    (hps : ∀ p ∈ ps, ∀ b ∈ p, ¬(b = ETX ∨ b = EOT))
    (hpn : ∀ b ∈ pn, ¬(b = ETX ∨ b = EOT)) :
    read T none (mkChan (msgStream (p1 :: ps) pn)) =
      .ok (reassembled (p1 :: ps) pn)
        ⟨[], 0, List.replicate (ps.length + 1) ACK⟩ ∧
    bcc_valid (reassembled (p1 :: ps) pn) = true := by
  constructor
  · show readOuter T ((mkChan (msgStream (p1 :: ps) pn)).stream.length + 1)
      [] 0 false none (mkChan (msgStream (p1 :: ps) pn)) = _
    have hlen : (mkChan (msgStream (p1 :: ps) pn)).stream.length
        = (msgStream (p1 :: ps) pn).length := by
      simp [mkChan, atT]
    rw [hlen]
    have hsh : (mkChan (msgStream (p1 :: ps) pn)) =
        ⟨atT 0 (eotBlock p1) ++ atT 0 (blocksBytes ps ++ etxBlock pn), 0, []⟩ := by
      simp [mkChan, msgStream, blocksBytes, atT_append]
    rw [hsh]
    obtain ⟨f', hf'⟩ : ∃ f', (msgStream (p1 :: ps) pn).length = f' + 1 := by
      refine ⟨(msgStream (p1 :: ps) pn).length - 1, ?_⟩
      have : 1 ≤ (msgStream (p1 :: ps) pn).length := by
        simp [msgStream, blocksBytes, eotBlock, add_bcc]
      omega
    rw [hf']
    rw [firstEOT T (f' + 1) p1 0 0 (atT 0 (blocksBytes ps ++ etxBlock pn)) []
      hp1 (le_refl 0) (by omega)]
    have hfuel : ps.length + 1 ≤ f' + 1 := by
      have h1 := blocksBytes_len ps
      have h2 : (msgStream (p1 :: ps) pn).length
          = (eotBlock p1).length + (blocksBytes ps).length
            + (etxBlock pn).length := by
        simp [msgStream, blocksBytes]
        omega
      have h3 : 1 ≤ (etxBlock pn).length := by
        simp [etxBlock, add_bcc]
      omega
    rw [multiLoop T pn hpn ps (f' + 1) (STX :: p1 ++ LINE_END) ([] ++ [ACK]) 1
      (le_refl 1) hfuel hps]
    simp [reassembled, List.replicate_succ]
  · simp [reassembled, bcc_valid_add_bcc]

/-- Witness for C1 at a concrete two-block message. -/
theorem c1_multi_block_reassembly_witness :
    read 10 none (mkChan (msgStream [[65]] [66])) =
      .ok (reassembled [[65]] [66]) ⟨[], 0, List.replicate 1 ACK⟩ ∧
    bcc_valid (reassembled [[65]] [66]) = true :=
  c1_multi_block_reassembly 10 [65] [66] [] (by decide) (by simp) (by decide)

/-- Claim C2 (code bug at the failing input): the single block STX 'A' ETX
arrives with a wrong checksum byte 99 and is then retransmitted with the
correct checksum 64.  Exactly one NACK is sent and the block is re-received,
but — because line 80 increments `packets` on the retry as well — the valid
re-receipt is treated as a block with `packets > 1`: its leading STX is
stripped and the checksum recomputed, so `read` returns `[65, ETX, 66]`
instead of the `[STX, 65, ETX, 64]` returned when no corruption occurs. -/
theorem c2_retry_changes_message :
    read 10 none (mkChan ([STX, 65, ETX, 99] ++ [STX, 65, ETX, 64])) =
      .ok [65, ETX, 66] ⟨[], 0, [NACK]⟩ ∧
    read 10 none (mkChan [STX, 65, ETX, 64]) =
      .ok [STX, 65, ETX, 64] ⟨[], 0, []⟩ ∧
    ([65, ETX, 66] : List Nat) ≠ [STX, 65, ETX, 64] := by decide

/-- Counterexample to claim C3: for the valid single-block message
STX 'A' ETX + correct checksum, `read` returns the whole framed block
`[STX, 65, ETX, 64]`, not the bare payload `[65]` — STX, ETX and the checksum
byte are all present in the returned buffer. -/
theorem c3_counterexample :
    read 10 none (mkChan [STX, 65, ETX, 64]) =
      .ok [STX, 65, ETX, 64] ⟨[], 0, []⟩ ∧
    ([STX, 65, ETX, 64] : List Nat) ≠ [65] := by decide

/-- Claim C3 as amended: for every valid single-block message, `read` returns
the entire framed block verbatim — STX, payload, ETX and the trailing
checksum byte included — sending nothing and consuming nothing past the
checksum byte. -/
theorem c3_single_block_verbatim (T : Nat) (p : List Nat)
    (rest : List (Nat × Nat)) (hp : ∀ b ∈ p, ¬(b = ETX ∨ b = EOT)) :
    read T none ⟨atT 0 (etxBlock p) ++ rest, 0, []⟩ =
      .ok (etxBlock p) ⟨rest, 0, []⟩ := by
  show readOuter T ((atT 0 (etxBlock p) ++ rest).length + 1) [] 0 false none _ = _
  exact firstETXok T (atT 0 (etxBlock p) ++ rest).length p 0 0 rest [] hp
    (le_refl 0) (by omega)

/-- Witness for the amended C3 at a concrete block. -/
theorem c3_single_block_verbatim_witness :
    read 10 none ⟨atT 0 (etxBlock [65]) ++ [], 0, []⟩ =
      .ok (etxBlock [65]) ⟨[], 0, []⟩ :=
  c3_single_block_verbatim 10 [65] [] (by decide)

/-- Counterexample to claim C4: discarding of bytes before a start byte does
not happen in block iterations after the first.  After a valid EOT block, a
junk byte 66 precedes the second block's STX; the code appends it to the
block, which therefore fails checksum validation and triggers a NACK and a
full retransmission (sent = [ACK, NACK]), whereas under the claimed semantics
the junk byte would be discarded and the run would be identical to the
junk-free run (sent = [ACK]). -/
theorem c4_counterexample :
    read 10 none (mkChan ([STX, 65, EOT, 71] ++ [66] ++ [STX, 67, ETX, 66]
        ++ [STX, 67, ETX, 66])) =
      .ok [STX, 65, 13, 10, 67, ETX, 4] ⟨[], 0, [ACK, NACK]⟩ ∧
    read 10 none (mkChan ([STX, 65, EOT, 71] ++ [STX, 67, ETX, 66])) =
      .ok [STX, 65, 13, 10, 67, ETX, 4] ⟨[], 0, [ACK]⟩ := by decide

/-- Claim C4 as amended: bytes are discarded and the start byte recorded only
until the first start byte of the call; in later block iterations every byte
— including an SOH — is accumulated as data until an end char, and the
recorded start byte never changes, so a later block beginning with SOH is not
recognized as an SOH block: it goes through checksum validation and start-byte
stripping like any STX block. -/
theorem c4_start_state_not_reset (T : Nat) (p1 p2 : List Nat)
    (hp1 : ∀ b ∈ p1, ¬(b = ETX ∨ b = EOT))
    (hp2 : ∀ b ∈ p2, ¬(b = ETX ∨ b = EOT)) :
    read T none (mkChan (eotBlock p1 ++ add_bcc ((SOH :: p2) ++ [ETX]))) =
      .ok (add_bcc (STX :: p1 ++ LINE_END ++ p2 ++ [ETX])) ⟨[], 0, [ACK]⟩ := by
  show readOuter T
      ((mkChan (eotBlock p1 ++ add_bcc ((SOH :: p2) ++ [ETX]))).stream.length + 1)
      [] 0 false none (mkChan (eotBlock p1 ++ add_bcc ((SOH :: p2) ++ [ETX]))) = _
  have hlen : (mkChan (eotBlock p1 ++ add_bcc ((SOH :: p2) ++ [ETX]))).stream.length
      = (eotBlock p1 ++ add_bcc ((SOH :: p2) ++ [ETX])).length := by
    simp [mkChan, atT]
  have hL : 1 ≤ (eotBlock p1 ++ add_bcc ((SOH :: p2) ++ [ETX])).length := by
    simp [eotBlock, add_bcc]
  rw [hlen]
  have hsh : mkChan (eotBlock p1 ++ add_bcc ((SOH :: p2) ++ [ETX]))
      = ⟨atT 0 (eotBlock p1) ++ atT 0 (add_bcc ((SOH :: p2) ++ [ETX])), 0, []⟩ := by
    simp [mkChan, atT_append]
  rw [hsh]
  obtain ⟨g, hg⟩ : ∃ g, (eotBlock p1 ++ add_bcc ((SOH :: p2) ++ [ETX])).length
      = g + 1 :=
    ⟨(eotBlock p1 ++ add_bcc ((SOH :: p2) ++ [ETX])).length - 1, by omega⟩
  rw [hg]
  rw [firstEOT T (g + 1) p1 0 0 (atT 0 (add_bcc ((SOH :: p2) ++ [ETX]))) [] hp1
    (le_refl 0) (by omega)]
  have hA : ¬(SOH = ETX ∨ SOH = EOT) := by simp [SOH, ETX, EOT]
  have h2 := laterETX T g SOH p2 0 0 [] ([] ++ [ACK]) (STX :: p1 ++ LINE_END)
    1 hA hp2 (le_refl 1) (le_refl 0) (by omega)
  rw [List.append_nil] at h2
  rw [h2]
  simp

/-- Witness for the amended C4 at concrete blocks. -/
theorem c4_start_state_not_reset_witness :
    read 10 none (mkChan (eotBlock [65] ++ add_bcc ((SOH :: [66]) ++ [ETX]))) =
      .ok (add_bcc (STX :: [65] ++ LINE_END ++ [66] ++ [ETX])) ⟨[], 0, [ACK]⟩ :=
  c4_start_state_not_reset 10 [65] [66] (by decide) (by decide)

/-- Claim C5 (code bug at the failing input): with configured timeout 1 and a
per-call override of 10, a first byte arriving at t = 5 — within the override
but beyond the configured timeout — makes `read` raise a timeout error,
because line 59 compares the elapsed time against `self.timeout` even though
line 48 computed the override; the same stream read with configured timeout 10
succeeds.  `simple_read` (lines 147/153) has the identical defect. -/
theorem c5_override_ignored :
    read 1 (some 10) ⟨[(5, STX), (5, 65), (5, ETX), (5, 64)], 0, []⟩ =
      .err .timeout ⟨[(5, 65), (5, ETX), (5, 64)], 5, []⟩ ∧
    read 10 none ⟨[(5, STX), (5, 65), (5, ETX), (5, 64)], 0, []⟩ =
      .ok [STX, 65, ETX, 64] ⟨[], 5, []⟩ ∧
    simple_read 1 47 33 (some 10) ⟨[(5, 47), (5, 33)], 0, []⟩ =
      .err .timeout ⟨[(5, 33)], 5, []⟩ := by decide

/-- Claim C6: a message whose recorded start byte is SOH is returned verbatim
immediately after the checksum byte is read — start byte, payload, end char
and trailing checksum byte included — with no checksum validation (the
checksum byte `x` is arbitrary), nothing sent, and the rest of the stream
untouched. -/
theorem c6_soh_returned_verbatim (T x : Nat) (ov : Option Nat) (p : List Nat)
    (e : Nat) (rest : List (Nat × Nat))
    (hp : ∀ b ∈ p, ¬(b = ETX ∨ b = EOT)) (he : e = ETX ∨ e = EOT) :
    read T ov ⟨atT 0 ((SOH :: p ++ [e]) ++ [x]) ++ rest, 0, []⟩ =
      .ok (SOH :: p ++ [e, x]) ⟨rest, 0, []⟩ := by
  show readOuter T ((atT 0 ((SOH :: p ++ [e]) ++ [x]) ++ rest).length + 1)
      [] 0 false none _ = _
  exact firstSOH T (atT 0 ((SOH :: p ++ [e]) ++ [x]) ++ rest).length p e x 0 0
    rest [] hp he (le_refl 0) (by omega)

/-- Witness for C6: an SOH block whose checksum byte 99 is wrong is still
returned verbatim with nothing sent. -/
theorem c6_soh_returned_verbatim_witness :
    read 10 none ⟨atT 0 ((SOH :: [65] ++ [ETX]) ++ [99]) ++ [], 0, []⟩ =
      .ok (SOH :: [65] ++ [ETX, 99]) ⟨[], 0, []⟩ :=
  c6_soh_returned_verbatim 10 99 none [65] ETX [] (by decide) (Or.inl rfl)

/-- Claim C7: if only bytes outside the start set arrive and the next byte
comes after the configured timeout has elapsed, `read` raises a timeout error,
sends nothing (the sent list is unchanged), and returns no data. -/
theorem c7_timeout_before_start (T b : Nat) (ov : Option Nat) (js : List Nat)
    (rest : List (Nat × Nat)) (s : List Nat)
    (hj : ∀ x ∈ js, ¬(x = SOH ∨ x = STX)) :
    read T ov ⟨atT 0 js ++ (T + 1, b) :: rest, 0, s⟩ =
      .err .timeout ⟨rest, T + 1, s⟩ := by
  show readOuter T ((atT 0 js ++ (T + 1, b) :: rest).length + 1) [] 0 false
    none ⟨atT 0 js ++ (T + 1, b) :: rest, 0, s⟩ = _
  rw [readOuter]
  dsimp only
  rw [innerSkip0 T 0 none [] 0 ((T + 1, b) :: rest) (by omega) js hj]
  rw [readInner]
  have h1 : max 0 (T + 1) = T + 1 := by omega
  have h2 : T + 1 - 0 > T := by omega
  simp [h1, h2]

/-- Witness for C7: one junk byte, then a byte past the deadline. -/
theorem c7_timeout_before_start_witness :
    read 1 none ⟨atT 0 [65] ++ (1 + 1, STX) :: [], 0, []⟩ =
      .err .timeout ⟨[], 1 + 1, []⟩ :=
  c7_timeout_before_start 1 STX none [65] [] [] (by decide)

/-- Claim C8: on both `SerialTransport` and `TcpTransport`, send, receive and
disconnect on a closed resource raise a transport error, as does
`SerialTransport.switch_baudrate`; `TcpTransport.switch_baudrate` is the one
exception — it never raises, never sends or receives bytes, and leaves the
transport unchanged whether or not the socket is open. -/
theorem c8_closed_resource_ops (st : SerialTransport) (tt tt2 : TcpTransport)
    (d : List Nat) (n baud baud2 : Nat)
    (hs : st.port = none) (ht : tt.socket = none) :
    st.disconnect = .error .closed ∧
    st.send d = .error .closed ∧
    st.recv n = .error .closed ∧
    st.switch_baudrate baud = .error .closed ∧
    tt.disconnect = .error .closed ∧
    tt.send d = .error .closed ∧
    tt.recv n = .error .closed ∧
    tt2.switch_baudrate baud2 = .ok tt2 := by
  refine ⟨?_, ?_, ?_, ?_, ?_, ?_, ?_, rfl⟩ <;>
    simp [SerialTransport.disconnect, SerialTransport.send,
      SerialTransport.recv, SerialTransport.switch_baudrate,
      TcpTransport.disconnect, TcpTransport.send, TcpTransport.recv, hs, ht]

/-- Witness for C8 at concrete closed transports. -/
theorem c8_closed_resource_ops_witness :
    (⟨"port0", 10, none⟩ : SerialTransport).disconnect = .error .closed ∧
    (⟨"port0", 10, none⟩ : SerialTransport).send [1] = .error .closed ∧
    (⟨"port0", 10, none⟩ : SerialTransport).recv 1 = .error .closed ∧
    (⟨"port0", 10, none⟩ : SerialTransport).switch_baudrate 300 = .error .closed ∧
    (⟨("host", 8000), 30, none⟩ : TcpTransport).disconnect = .error .closed ∧
    (⟨("host", 8000), 30, none⟩ : TcpTransport).send [1] = .error .closed ∧
    (⟨("host", 8000), 30, none⟩ : TcpTransport).recv 1 = .error .closed ∧
    (⟨("host", 8000), 30, some ⟨[], []⟩⟩ : TcpTransport).switch_baudrate 9600 =
      .ok ⟨("host", 8000), 30, some ⟨[], []⟩⟩ :=
  c8_closed_resource_ops ⟨"port0", 10, none⟩ ⟨("host", 8000), 30, none⟩
    ⟨("host", 8000), 30, some ⟨[], []⟩⟩ [1] 1 300 9600 rfl rfl

/-- Claim C9: `simple_read` with start byte '/' (47) and end byte '!' (33) on
the stream "junk/hello!more" returns "/hello!" — bytes before the start byte
are discarded, bytes through the end byte inclusive are accumulated, and the
bytes of "more" are left unconsumed on the stream. -/
theorem c9_simple_read_contract :
    simple_read 30 47 33 none
        (mkChan ([106, 117, 110, 107] ++ [47] ++ [104, 101, 108, 108, 111]
          ++ [33] ++ [109, 111, 114, 101])) =
      .ok [47, 104, 101, 108, 108, 111, 33]
        ⟨atT 0 [109, 111, 114, 101], 0, []⟩ := by decide

/-- A later block attempt with an invalid checksum byte: every byte up to the
end char is accumulated (start state already consumed), the checksum fails
validation, a NACK is sent, and the loop retries with the packet counter
incremented and the message buffer unchanged. -/
theorem laterETXbad (T f : Nat) (a : Nat) (q : List Nat) (w t now0 : Nat)
    (rest : List (Nat × Nat)) (s total : List Nat) (packets : Nat)
    (ha : ¬(a = ETX ∨ a = EOT)) (hq : ∀ b ∈ q, ¬(b = ETX ∨ b = EOT))
    (hw : bcc ((a :: q) ++ [ETX]) ≠ w)
    (hnow : now0 ≤ t) (ht : t - now0 ≤ T) :
    readOuter T (f + 1) total packets true (some STX)
        ⟨atT t ((a :: q ++ [ETX]) ++ [w]) ++ rest, now0, s⟩ =
      readOuter T f total (packets + 1) true (some STX)
        ⟨rest, t, s ++ [NACK]⟩ := by
  rw [readOuter]
  dsimp only
  have hsh : atT t ((a :: q ++ [ETX]) ++ [w]) ++ rest
      = atT t ((a :: q) ++ [ETX]) ++ ((t, w) :: rest) := by
    simp [atT_append, atT]
  have hall : ∀ b ∈ a :: q, ¬(b = ETX ∨ b = EOT) := by
    intro b hb
    rcases List.mem_cons.mp hb with h | h
    · exact h ▸ ha
    · exact hq b h
  rw [hsh, innerAccumT T now0 (some STX) ETX ((t, w) :: rest) (Or.inl rfl)
    (a :: q) [] now0 t hall hnow ht]
  simp [SOH, STX, ETX, EOT, bcc_valid_cons_arb, sendByte]
  intro h
  exact absurd h hw

theorem afterN_shift (T a : Nat) : ∀ n, afterN (a + T) T n = afterN a T (n + 1) := by
  intro n
  induction n with
  | zero => simp [afterN]
  | succ m ih => simp [afterN, ih]

theorem afterN_eq (a T : Nat) : ∀ n, afterN a T n = a + n * T := by
  intro n
  induction n with
  | zero => simp [afterN]
  | succ m ih =>
    rw [show afterN a T (m + 1) = afterN a T m + T from rfl, ih]
    ring

theorem stairsA_len (T : Nat) : ∀ n a, (stairsA T n a).length = 4 * n + 4 := by
  intro n
  induction n with
  | zero => intro a; simp [stairsA, atT, etxBlock, add_bcc]
  | succ m ih =>
    intro a
    simp [stairsA, atT, eotBlock, add_bcc, ih]
    omega

theorem stairsB_len (T : Nat) : ∀ n a, (stairsB T n a).length = 4 * n + 4 := by
  intro n
  induction n with
  | zero => intro a; simp [stairsB, atT, add_bcc]
  | succ m ih =>
    intro a
    simp [stairsB, atT, ih]
    omega

/-- Loop invariant of the staircase multi-block run: with the start state
consumed, `packets ≥ 1` and enough fuel, the remaining `n` EOT blocks and
final ETX block — each arriving exactly `T` after the previous attempt — are
all consumed without a timeout error, each EOT block is ACKed, and the clock
advances by `(n + 1) * T`. -/
theorem stairsLoopA (T : Nat) :
    ∀ (n f : Nat) (total s : List Nat) (packets a : Nat),
      1 ≤ packets → n + 1 ≤ f →
      readOuter T f total packets true (some STX) ⟨stairsA T n a, a, s⟩ =
        .ok (add_bcc (total ++ bodyBytes (List.replicate n [65]) ++ [66] ++ [ETX]))
          ⟨[], afterN a T (n + 1), s ++ List.replicate n ACK⟩ := by
  intro n
  induction n with
  | zero =>
    intro f total s packets a hpk hf
    obtain ⟨f', rfl⟩ : ∃ f', f = f' + 1 := ⟨f - 1, by omega⟩
    rw [show stairsA T 0 a = atT (a + T) (etxBlock [66]) from rfl]
    rw [show etxBlock [66] = add_bcc ((STX :: [66]) ++ [ETX]) from by
      simp [etxBlock]]
    rw [show atT (a + T) (add_bcc ((STX :: [66]) ++ [ETX]))
        = atT (a + T) (add_bcc ((STX :: [66]) ++ [ETX])) ++ ([] : List (Nat × Nat))
      from (List.append_nil _).symm]
    rw [laterETX T f' STX [66] (a + T) a [] s total packets (by decide)
      (by decide) hpk (by omega) (by omega)]
    simp [afterN, bodyBytes]
  | succ m ih =>
    intro f total s packets a hpk hf
    obtain ⟨f', rfl⟩ : ∃ f', f = f' + 1 := ⟨f - 1, by omega⟩
    rw [show stairsA T (m + 1) a
        = atT (a + T) (eotBlock [65]) ++ stairsA T m (a + T) from rfl]
    rw [show eotBlock [65] = add_bcc ((STX :: [65]) ++ [EOT]) from by
      simp [eotBlock]]
    rw [laterEOT T f' STX [65] (a + T) a (stairsA T m (a + T)) s total packets
      (by decide) (by decide) hpk (by omega) (by omega)]
    rw [ih f' (total ++ ([65] ++ LINE_END)) (s ++ [ACK]) (packets + 1) (a + T)
      (by omega) (by omega)]
    have hshift := afterN_shift T a (m + 1)
    simp [bodyBytes, List.replicate_succ, hshift]

/-- Loop invariant of the staircase NACK-retry run: with the start state
consumed, `packets ≥ 1` and enough fuel, `n` further invalid receipts — each
arriving exactly `T` after the previous attempt — each draw one NACK and no
timeout error, and the final valid receipt returns the (stripped and
re-checksummed, see C2) message, the clock having advanced by `(n + 1) * T`. -/
theorem stairsLoopB (T : Nat) :
    ∀ (n f : Nat) (s : List Nat) (packets a : Nat),
      1 ≤ packets → n + 1 ≤ f →
      readOuter T f [] packets true (some STX) ⟨stairsB T n a, a, s⟩ =
        .ok (add_bcc ([65] ++ [ETX]))
          ⟨[], afterN a T (n + 1), s ++ List.replicate n NACK⟩ := by
  intro n
  induction n with
  | zero =>
    intro f s packets a hpk hf
    obtain ⟨f', rfl⟩ : ∃ f', f = f' + 1 := ⟨f - 1, by omega⟩
    rw [show stairsB T 0 a = atT (a + T) (add_bcc ((STX :: [65]) ++ [ETX]))
      from rfl]
    rw [show atT (a + T) (add_bcc ((STX :: [65]) ++ [ETX]))
        = atT (a + T) (add_bcc ((STX :: [65]) ++ [ETX])) ++ ([] : List (Nat × Nat))
      from (List.append_nil _).symm]
    rw [laterETX T f' STX [65] (a + T) a [] s [] packets (by decide)
      (by decide) hpk (by omega) (by omega)]
    simp [afterN]
  | succ m ih =>
    intro f s packets a hpk hf
    obtain ⟨f', rfl⟩ : ∃ f', f = f' + 1 := ⟨f - 1, by omega⟩
    rw [show stairsB T (m + 1) a
        = atT (a + T) ((STX :: [65] ++ [ETX]) ++ [99]) ++ stairsB T m (a + T)
      from rfl]
    rw [laterETXbad T f' STX [65] 99 (a + T) a (stairsB T m (a + T)) s []
      packets (by decide) (by decide) (by decide) (by omega) (by omega)]
    rw [ih f' (s ++ [NACK]) (packets + 1) (a + T) (by omega) (by omega)]
    have hshift := afterN_shift T a (m + 1)
    simp [List.replicate_succ, hshift]

/-- Claim C10: the elapsed-time clock restarts at the beginning of every block
attempt, including after every NACK, so the configured timeout `T` bounds only
the wait for a single block.  Universally over `n ≥ 1` and `T ≥ 1`: a message
of `n + 1` blocks (`n` EOT blocks and a final ETX block) whose attempts each
arrive exactly `T` — the maximal per-block wait — after the previous attempt
completed is read with no timeout error (every EOT block ACKed), and likewise
a block NACK-retried `n` times before its valid receipt; both runs take
`(n + 1) * T > T` of wall-clock time in total. -/
theorem c10_clock_restarts_per_block (T n : Nat) (hT : 1 ≤ T) (hn : 1 ≤ n) :
    read T none ⟨stairsA T n 0, 0, []⟩ =
      .ok (reassembled (List.replicate n [65]) [66])
        ⟨[], afterN 0 T (n + 1), List.replicate n ACK⟩ ∧
    read T none ⟨stairsB T n 0, 0, []⟩ =
      .ok (add_bcc ([65] ++ [ETX]))
        ⟨[], afterN 0 T (n + 1), List.replicate n NACK⟩ ∧
    afterN 0 T (n + 1) = (n + 1) * T ∧
    T < (n + 1) * T := by
  obtain ⟨m, rfl⟩ : ∃ m, n = m + 1 := ⟨n - 1, by omega⟩
  refine ⟨?_, ?_, ?_, ?_⟩
  · show readOuter T ((stairsA T (m + 1) 0).length + 1) [] 0 false none
      ⟨stairsA T (m + 1) 0, 0, []⟩ = _
    rw [stairsA_len T (m + 1) 0]
    rw [show stairsA T (m + 1) 0
        = atT (0 + T) (eotBlock [65]) ++ stairsA T m (0 + T) from rfl]
    rw [firstEOT T (4 * (m + 1) + 4) [65] (0 + T) 0 (stairsA T m (0 + T)) []
      (by decide) (by omega) (by omega)]
    rw [stairsLoopA T m (4 * (m + 1) + 4) (STX :: [65] ++ LINE_END)
      ([] ++ [ACK]) 1 (0 + T) (le_refl 1) (by omega)]
    have hshift : afterN T T (m + 1) = afterN 0 T (m + 1 + 1) := by
      simpa using afterN_shift T 0 (m + 1)
    simp [reassembled, List.replicate_succ, hshift, bodyBytes]
  · show readOuter T ((stairsB T (m + 1) 0).length + 1) [] 0 false none
      ⟨stairsB T (m + 1) 0, 0, []⟩ = _
    rw [stairsB_len T (m + 1) 0]
    rw [show stairsB T (m + 1) 0
        = atT (0 + T) ((STX :: [65] ++ [ETX]) ++ [99]) ++ stairsB T m (0 + T)
      from rfl]
    rw [firstETXbad T (4 * (m + 1) + 4) [65] 99 (0 + T) 0
      (stairsB T m (0 + T)) [] (by decide) (by decide) (by omega) (by omega)]
    rw [stairsLoopB T m (4 * (m + 1) + 4) ([] ++ [NACK]) 1 (0 + T) (le_refl 1)
      (by omega)]
    have hshift : afterN T T (m + 1) = afterN 0 T (m + 1 + 1) := by
      simpa using afterN_shift T 0 (m + 1)
    simp [List.replicate_succ, hshift]
  · rw [afterN_eq 0 T (m + 1 + 1)]
    simp
  · rw [show (m + 1 + 1) * T = (m + 1) * T + T from by ring]
    exact Nat.lt_add_of_pos_left (Nat.mul_pos (by omega) (by omega))

/-- Witness for C10 at `T = 5`, `n = 2` (three block attempts). -/
theorem c10_clock_restarts_per_block_witness :
    read 5 none ⟨stairsA 5 2 0, 0, []⟩ =
      .ok (reassembled (List.replicate 2 [65]) [66])
        ⟨[], afterN 0 5 (2 + 1), List.replicate 2 ACK⟩ ∧
    read 5 none ⟨stairsB 5 2 0, 0, []⟩ =
      .ok (add_bcc ([65] ++ [ETX]))
        ⟨[], afterN 0 5 (2 + 1), List.replicate 2 NACK⟩ ∧
    afterN 0 5 (2 + 1) = (2 + 1) * 5 ∧
    (5 : Nat) < (2 + 1) * 5 :=
  c10_clock_restarts_per_block 5 2 (by decide) (by decide)

end Iec62056
